import Mathlib

set_option maxRecDepth 8000

/-!
Shallow embedding of `src/upmain.c` (an ESP-IDF/FreeRTOS monitoring node):
a producer task (`LightSensorTask`) appends ADC samples into a fixed
circular log guarded by a bounded-wait mutex, a debounced button ISR
(`button_isr_handler`) signals a binary semaphore, and a consumer task
(`LoggerTask`) suspends the producer, copies the log under the mutex, and
computes min/max/average/over-threshold statistics.

Machine integers are modelled as `Nat` with explicit reductions modulo
`2^16` (the `uint16_t` log cells) and `2^32` (the `uint32_t` sum and the
`TickType_t` tick arithmetic) exactly where the C code can overflow.
-/

/-- LOG_SIZE, src/upmain.c line 16. -/
def LOG_SIZE : Nat := 50

/-- LIGHT_THRESHOLD, src/upmain.c line 17. -/
def LIGHT_THRESHOLD : Nat := 3000

/-- DEBOUNCE_MS, src/upmain.c line 18: minimum time between valid button presses. -/
def DEBOUNCE_MS : Nat := 50

/-- Modulus of the C type uint16_t (the element type of `adc_log`). -/
def UINT16_MOD : Nat := 65536

/-- Modulus of the C types uint32_t and TickType_t. -/
def UINT32_MOD : Nat := 4294967296

/-- The globals of the circular log, src/upmain.c lines 22-24:
`adc_log` (array of LOG_SIZE uint16_t cells), `log_index` (int),
`latest_adc` (int, only ever holds the nonnegative ADC raw value). -/
structure LogState where
  adc_log : List Nat
  log_index : Nat
  latest_adc : Nat
  deriving DecidableEq

/-- Static-initializer state of the log globals: zeroed array, index 0,
latest reading 0 (src/upmain.c lines 22-24). -/
def LogState.init : LogState := ⟨List.replicate LOG_SIZE 0, 0, 0⟩

/-- One producer cycle body, src/upmain.c lines 69-78: `latest_adc` is
written unconditionally; then, only when the bounded (10 ms) mutex take
succeeds (`mutexOk`), the sample is stored at `log_index` (truncated to
uint16_t by the C assignment) and the index advances modulo LOG_SIZE.
On timeout nothing but `latest_adc` changes. -/
def appendSample (mutexOk : Bool) (v : Nat) (s : LogState) : LogState :=
  if mutexOk then
    { adc_log := s.adc_log.set s.log_index (v % UINT16_MOD)
      log_index := (s.log_index + 1) % LOG_SIZE
      latest_adc := v }
  else
    { s with latest_adc := v }

/-- Iterated producer cycles, all with a successful mutex take. -/
def appendAll : List Nat → LogState → LogState
  | [], s => s
  | v :: vs, s => appendAll vs (appendSample true v s)

/-- Iterated producer cycles with an arbitrary mutex outcome per cycle. -/
def appendTrace : List (Bool × Nat) → LogState → LogState
  | [], s => s
  | op :: ops, s => appendTrace ops (appendSample op.1 op.2 s)

/-- The log contents read in circular order starting at the write index:
entry j is the cell at `(log_index + j) % LOG_SIZE`. -/
def readOut (s : LogState) : List Nat :=
  (List.range LOG_SIZE).map fun j => s.adc_log.getD ((s.log_index + j) % LOG_SIZE) 0

/-- Accumulator of the statistics loop, src/upmain.c lines 110-112:
uint32_t sum, uint16_t min (starting 4095), uint16_t max (starting 0),
int over_threshold_count. -/
structure Stats where
  sum : Nat
  min : Nat
  max : Nat
  over : Nat
  deriving DecidableEq

/-- One iteration of the statistics loop, src/upmain.c lines 114-120:
min/max comparisons are strict, the threshold count uses strictly-greater,
and the uint32_t sum wraps modulo 2^32. -/
def statsStep (st : Stats) (val : Nat) : Stats :=
  { sum := (st.sum + val) % UINT32_MOD
    min := if val < st.min then val else st.min
    max := if st.max < val then val else st.max
    over := if LIGHT_THRESHOLD < val then st.over + 1 else st.over }

/-- The statistics loop over the whole buffer. -/
def statsLoop : List Nat → Stats → Stats
  | [], st => st
  | v :: vs, st => statsLoop vs (statsStep st v)

/-- Statistics of a snapshot buffer, starting from sum=0, min=4095,
max=0, count=0 (src/upmain.c lines 110-120). -/
def computeStats (buffer : List Nat) : Stats :=
  statsLoop buffer ⟨0, 4095, 0, 0⟩

/-- Average, src/upmain.c line 122: `uint16_t avg = sum / LOG_SIZE` —
uint32_t floor division, then truncation to uint16_t by the assignment. -/
def computeAvg (buffer : List Nat) : Nat :=
  (computeStats buffer).sum / LOG_SIZE % UINT16_MOD

/-- Debounce state, src/upmain.c line 31: `last_interrupt_time`
(TickType_t, statically initialized to 0). -/
structure DebounceState where
  last_interrupt_time : Nat
  deriving DecidableEq

/-- Modelled from the spec: `portTICK_PERIOD_MS`, the milliseconds per
FreeRTOS tick. The FreeRTOS configuration header is not part of the
repository; the spec states all debounce times directly in milliseconds,
so ticks are taken as 1 ms. -/
def portTICK_PERIOD_MS : Nat := 1

/-- Elapsed milliseconds as the ISR computes them, src/upmain.c line 36:
`(now - last_interrupt_time) * portTICK_PERIOD_MS` in TickType_t
(uint32_t) arithmetic, for `now`, `last` below 2^32. -/
def elapsedMs (now last : Nat) : Nat :=
  (UINT32_MOD + now - last) % UINT32_MOD * portTICK_PERIOD_MS % UINT32_MOD

/-- The button ISR, src/upmain.c lines 34-42: an edge whose elapsed time
since the last accepted edge is at least DEBOUNCE_MS updates
`last_interrupt_time` and gives the semaphore (returns `true`); otherwise
the edge is discarded with no state change (returns `false`). -/
def button_isr_handler (now : Nat) (s : DebounceState) : DebounceState × Bool :=
  if DEBOUNCE_MS ≤ elapsedMs now s.last_interrupt_time then
    (⟨now⟩, true)
  else
    (s, false)

/-- Delivers a list of edge timestamps to the ISR in order and collects
the accepted (semaphore-giving) timestamps. -/
def runEdges : List Nat → DebounceState → DebounceState × List Nat
  | [], s => (s, [])
  | now :: rest, s =>
    let r := button_isr_handler now s
    let rec_ := runEdges rest r.1
    (rec_.1, if r.2 then now :: rec_.2 else rec_.2)

/-- Modelled from the spec: the FreeRTOS binary semaphore `xButtonSem` as
the spec's single-slot event (pending / not pending). Giving it sets it
pending; giving an already-pending semaphore is a no-op (it stays
pending, no count accumulates). -/
def giveFromISR (_pending : Bool) : Bool := true

/-- Modelled from the spec: taking the single-slot event. On a pending
event the take succeeds and clears it; otherwise the caller blocks
(`none`). -/
def takeEvent (pending : Bool) : Option Bool :=
  if pending then some false else none

/-- Number of snapshot/report cycles the consumer completes before
blocking again, given `fuel` loop iterations: each successful take of the
event runs one cycle, a failed take blocks. -/
def consumerCycles : Nat → Bool → Nat
  | 0, _ => 0
  | fuel + 1, p =>
    match takeEvent p with
    | some p2 => 1 + consumerCycles fuel p2
    | none => 0

/-- Result of the consumer's snapshot phase: the stack buffer contents
after the copy attempt, whether suspend/resume were called on the
producer, and whether the producer is left suspended. -/
structure SnapshotResult where
  buffer : List Nat
  suspendCalled : Bool
  resumeCalled : Bool
  producerSuspended : Bool
  deriving DecidableEq

/-- The snapshot phase of LoggerTask, src/upmain.c lines 96-108:
suspend the producer when its handle is non-null; copy the whole log
into the local stack buffer only when the bounded (50 ms) mutex take
succeeds — on timeout the stack buffer keeps its previous (uninitialized)
contents `stack`; resume the producer (when the handle is non-null)
regardless of the mutex outcome. -/
def snapshotPhase (handleNonNull mutexOk : Bool) (stack : List Nat)
    (s : LogState) (prodSuspended : Bool) : SnapshotResult :=
  let susp1 := if handleNonNull then true else prodSuspended
  let buffer := if mutexOk then s.adc_log else stack
  let susp2 := if handleNonNull then false else susp1
  ⟨buffer, handleNonNull, handleNonNull, susp2⟩

/-- The report LoggerTask emits for a snapshot buffer, src/upmain.c
lines 110-125: the statistics and the truncated average. -/
def loggerReport (buffer : List Nat) : Stats × Nat :=
  (computeStats buffer, computeAvg buffer)

/-- Interleaving-level producer actions for the snapshot-consistency
analysis. `acquireStep v` is the producer taking the mutex with sample
`v` read (and `latest_adc` already written); `commitStep` is the store
into the log, the index advance and the mutex release (src/upmain.c
lines 74-78); `dropStep v` is a 10 ms take timeout: the sample is
dropped, only `latest_adc` changes. -/
inductive ProdStep where
  | dropStep (v : Nat)
  | acquireStep (v : Nat)
  | commitStep
  deriving DecidableEq

/-- Fine-grained system state for snapshot consistency: the log globals,
whether the producer holds `xLogMutex`, the sample the producer is about
to store while inside its critical section, and the ghost list of values
actually appended (committed) into the log. -/
structure Sys where
  adc_log : List Nat
  log_index : Nat
  latest_adc : Nat
  mutexHeld : Bool
  midWrite : Option Nat
  written : List Nat
  deriving DecidableEq

/-- Boot state of the fine-grained system: zeroed log, mutex free,
producer outside its critical section, nothing appended yet. -/
def Sys.init : Sys := ⟨List.replicate LOG_SIZE 0, 0, 0, false, none, []⟩

/-- Small-step semantics of the producer against the mutex,
src/upmain.c lines 69-78. A step that is not enabled yields `none`. -/
def stepSys (s : Sys) : ProdStep → Option Sys
  | .dropStep v => some { s with latest_adc := v }
  | .acquireStep v =>
    if s.mutexHeld || s.midWrite.isSome then none
    else some { s with latest_adc := v, mutexHeld := true, midWrite := some v }
  | .commitStep =>
    match s.midWrite with
    | some v =>
      some { s with
        adc_log := s.adc_log.set s.log_index (v % UINT16_MOD)
        log_index := (s.log_index + 1) % LOG_SIZE
        mutexHeld := false
        midWrite := none
        written := s.written ++ [v] }
    | none => none

/-- Runs a list of producer steps from a state; fails if a step is not
enabled. -/
def runSys : List ProdStep → Sys → Option Sys
  | [], s => some s
  | st :: rest, s =>
    match stepSys s st with
    | some s2 => runSys rest s2
    | none => none

/-- The buffer the consumer's snapshot phase ends with, at a state where
the producer has just been suspended: the 50 ms mutex take succeeds
exactly when the suspended producer does not hold the mutex; on timeout
the uninitialized stack contents `garbage` remain (src/upmain.c
lines 100-104). -/
def snapshotOf (garbage : List Nat) (s : Sys) : List Nat :=
  if s.mutexHeld then garbage else s.adc_log

/-- Bounds check on a producer step: ADC raw values are 12-bit,
at most 4095 (src/upmain.c line 65, `ADC_WIDTH_BIT_12`). -/
def stepValOk : ProdStep → Bool
  | .dropStep v => v ≤ 4095
  | .acquireStep v => v ≤ 4095
  | .commitStep => true

/-- The process globals relevant to startup, src/upmain.c lines 22-31:
the log globals, the debounce timestamp and the button event. -/
structure Globals where
  log : LogState
  debounce : DebounceState
  buttonPending : Bool
  deriving DecidableEq

/-- Startup of the node: a boot runs the C static initializers
(src/upmain.c lines 22-31), which zero `adc_log`, `log_index`,
`latest_adc` and `last_interrupt_time`, and then `app_main`
(lines 130-156), which creates a fresh (non-pending) binary semaphore
and a fresh mutex and writes none of these variables. The previous run's
state is discarded entirely. -/
def startup (_prev : Globals) : Globals :=
  ⟨LogState.init, ⟨0⟩, false⟩

/-! Helper lemmas. -/

theorem getD_set_same (l : List Nat) (idx x : Nat) (h : idx < l.length) :
    (l.set idx x).getD idx 0 = x := by
  simp [List.getD_eq_getElem?_getD, List.getElem?_set_self h]

theorem getD_set_other (l : List Nat) (idx i x : Nat) (h : idx ≠ i) :
    (l.set idx x).getD i 0 = l.getD i 0 := by
  simp [List.getD_eq_getElem?_getD, List.getElem?_set_ne h]

theorem statsLoop_sum (b : List Nat) : ∀ st : Stats, (∀ v ∈ b, v ≤ 4095) →
    st.sum + 4095 * b.length < UINT32_MOD → (statsLoop b st).sum = st.sum + b.sum := by
  induction b with
  | nil => intro st _ _; simp [statsLoop]
  | cons v b ih =>
    intro st hb hlt
    have hv : v ≤ 4095 := hb v (by simp)
    simp only [List.length_cons, UINT32_MOD] at hlt
    have hlt2 : st.sum + v < 4294967296 := by omega
    have hstep : (statsStep st v).sum = st.sum + v := by
      simp [statsStep, UINT32_MOD, Nat.mod_eq_of_lt hlt2]
    have hrec := ih (statsStep st v) (fun w hw => hb w (by simp [hw]))
      (by rw [hstep]; simp only [UINT32_MOD]; omega)
    simp only [statsLoop, hrec, hstep, List.sum_cons]
    omega

theorem statsLoop_min (b : List Nat) : ∀ st : Stats,
    ((statsLoop b st).min = st.min ∨ (statsLoop b st).min ∈ b) ∧
    (statsLoop b st).min ≤ st.min ∧ ∀ v ∈ b, (statsLoop b st).min ≤ v := by
  induction b with
  | nil => intro st; simp [statsLoop]
  | cons v b ih =>
    intro st
    obtain ⟨hmem, hle, hall⟩ := ih (statsStep st v)
    have hstep : (statsStep st v).min = if v < st.min then v else st.min := rfl
    have hloop : statsLoop (v :: b) st = statsLoop b (statsStep st v) := rfl
    rw [hloop]
    refine ⟨?_, ?_, ?_⟩
    · rcases hmem with h | h
      · rw [h, hstep]
        by_cases hc : v < st.min
        · right; simp [hc]
        · left; simp [hc]
      · right; exact List.mem_cons_of_mem _ h
    · refine le_trans hle ?_
      rw [hstep]; split <;> omega
    · intro w hw
      rcases List.mem_cons.mp hw with rfl | hwb
      · refine le_trans hle ?_
        rw [hstep]; split <;> omega
      · exact hall w hwb

theorem statsLoop_max (b : List Nat) : ∀ st : Stats,
    ((statsLoop b st).max = st.max ∨ (statsLoop b st).max ∈ b) ∧
    st.max ≤ (statsLoop b st).max ∧ ∀ v ∈ b, v ≤ (statsLoop b st).max := by
  induction b with
  | nil => intro st; simp [statsLoop]
  | cons v b ih =>
    intro st
    obtain ⟨hmem, hle, hall⟩ := ih (statsStep st v)
    have hstep : (statsStep st v).max = if st.max < v then v else st.max := rfl
    have hloop : statsLoop (v :: b) st = statsLoop b (statsStep st v) := rfl
    rw [hloop]
    refine ⟨?_, ?_, ?_⟩
    · rcases hmem with h | h
      · rw [h, hstep]
        by_cases hc : st.max < v
        · right; simp [hc]
        · left; simp [hc]
      · right; exact List.mem_cons_of_mem _ h
    · refine le_trans ?_ hle
      rw [hstep]; split <;> omega
    · intro w hw
      rcases List.mem_cons.mp hw with rfl | hwb
      · refine le_trans ?_ hle
        rw [hstep]; split <;> omega
      · exact hall w hwb

theorem statsLoop_over (b : List Nat) : ∀ st : Stats,
    (statsLoop b st).over = st.over + b.countP fun v => decide (LIGHT_THRESHOLD < v) := by
  induction b with
  | nil => intro st; simp [statsLoop]
  | cons v b ih =>
    intro st
    have hloop : statsLoop (v :: b) st = statsLoop b (statsStep st v) := rfl
    have hstep : (statsStep st v).over = if LIGHT_THRESHOLD < v then st.over + 1 else st.over := rfl
    rw [hloop, ih (statsStep st v), hstep, List.countP_cons]
    by_cases hc : LIGHT_THRESHOLD < v
    · simp [hc]
      omega
    · simp [hc]

theorem sum_le_of_bound (b : List Nat) (h : ∀ v ∈ b, v ≤ 4095) : b.sum ≤ 4095 * b.length := by
  induction b with
  | nil => simp
  | cons v b ih =>
    have hv : v ≤ 4095 := h v (by simp)
    have hb := ih fun w hw => h w (by simp [hw])
    simp only [List.sum_cons, List.length_cons]
    omega

theorem computeStats_sum_exact (b : List Nat) (hlen : b.length = LOG_SIZE)
    (hb : ∀ v ∈ b, v ≤ 4095) : (computeStats b).sum = b.sum := by
  have := statsLoop_sum b ⟨0, 4095, 0, 0⟩ hb
    (by simp only [hlen, LOG_SIZE, UINT32_MOD]; omega)
  simpa [computeStats] using this

theorem computeAvg_exact (b : List Nat) (hlen : b.length = LOG_SIZE)
    (hb : ∀ v ∈ b, v ≤ 4095) : computeAvg b = b.sum / LOG_SIZE := by
  have hsum := computeStats_sum_exact b hlen hb
  have hle : b.sum ≤ 204750 := by
    have := sum_le_of_bound b hb
    rw [hlen] at this
    simpa [LOG_SIZE] using this
  have hdiv : b.sum / LOG_SIZE < UINT16_MOD := by
    have : b.sum / LOG_SIZE ≤ 204750 / LOG_SIZE := Nat.div_le_div_right hle
    simp only [LOG_SIZE, UINT16_MOD] at this ⊢
    omega
  simp [computeAvg, hsum, Nat.mod_eq_of_lt hdiv]

/-! Claims. -/

/-- Claim C2, counterexample: from the initial debounce state
(`last_interrupt_time = 0`) the edge at t=0 has elapsed time 0 < 50 ms
and is discarded, so edges at 0, 10, 40, 60 ms yield only the single
accepted event t=60 — not the two events the claim states; likewise
edges at 0, 60, 65 ms yield only t=60. -/
theorem c2_counterexample_first_edge :
    (runEdges [0, 10, 40, 60] ⟨0⟩).2 = [60] ∧
    (runEdges [0, 10, 40, 60] ⟨0⟩).2 ≠ [0, 60] ∧
    (runEdges [0, 10, 40, 60] ⟨0⟩).2.length ≠ 2 ∧
    (runEdges [0, 60, 65] ⟨0⟩).2 = [60] ∧
    (runEdges [0, 60, 65] ⟨0⟩).2 ≠ [0, 60] := by
  decide

/-- Claim C2, amended: an edge whose elapsed time since the last accepted
trigger is below 50 ms is discarded with no state change, otherwise
`last_interrupt_time` is set to `now` and the event is signaled; from the
initial state, edges at t=0, 10, 40, 60 ms yield exactly one accepted
event (t=60, the t=0 edge being discarded because its elapsed time since
the zero-initialized timestamp is 0 < 50 ms), and edges at t=0, 60, 65 ms
also yield exactly the one accepted event t=60. -/
theorem c2_amended_debounce :
    (∀ (now : Nat) (s : DebounceState),
      (elapsedMs now s.last_interrupt_time < DEBOUNCE_MS →
        button_isr_handler now s = (s, false)) ∧
      (DEBOUNCE_MS ≤ elapsedMs now s.last_interrupt_time →
        button_isr_handler now s = (⟨now⟩, true))) ∧
    (runEdges [0, 10, 40, 60] ⟨0⟩).2 = [60] ∧
    (runEdges [0, 60, 65] ⟨0⟩).2 = [60] := by
  refine ⟨fun now s => ⟨fun h => ?_, fun h => ?_⟩, by decide, by decide⟩
  · simp [button_isr_handler, Nat.not_le.mpr h]
  · simp [button_isr_handler, h]

/-- Claim C2, witness: an edge at t=100 from the initial state is
accepted, an edge at t=30 is discarded. -/
theorem c2_amended_debounce_witness :
    button_isr_handler 100 ⟨0⟩ = (⟨100⟩, true) ∧
    button_isr_handler 30 ⟨0⟩ = (⟨0⟩, false) :=
  ⟨(c2_amended_debounce.1 100 ⟨0⟩).2 (by decide),
   (c2_amended_debounce.1 30 ⟨0⟩).1 (by decide)⟩

/-- Claim C3: for every snapshot of LOG_SIZE samples each at most 4095,
the report's min is the least buffer value, its max the greatest, its
count the number of values strictly above LIGHT_THRESHOLD, and its
average the integer floor of sum divided by LOG_SIZE; in particular a
buffer of 49 values 3100 and one value 100 yields min 100, max 3100,
count 49 and average (49*3100+100)/50, and a buffer of sum 101 yields
average 2. -/
theorem c3_report_statistics :
    (∀ b : List Nat, b.length = LOG_SIZE → (∀ v ∈ b, v ≤ 4095) →
      ((computeStats b).min ∈ b ∧ ∀ v ∈ b, (computeStats b).min ≤ v) ∧
      ((computeStats b).max ∈ b ∧ ∀ v ∈ b, v ≤ (computeStats b).max) ∧
      ((computeStats b).over = b.countP fun v => decide (LIGHT_THRESHOLD < v)) ∧
      computeAvg b = b.sum / LOG_SIZE) ∧
    (computeStats (List.replicate 49 3100 ++ [100])).min = 100 ∧
    (computeStats (List.replicate 49 3100 ++ [100])).max = 3100 ∧
    (computeStats (List.replicate 49 3100 ++ [100])).over = 49 ∧
    computeAvg (List.replicate 49 3100 ++ [100]) = (49 * 3100 + 100) / 50 ∧
    (List.replicate 49 2 ++ [3]).sum = 101 ∧
    computeAvg (List.replicate 49 2 ++ [3]) = 2 := by
  refine ⟨fun b hlen hb => ?_, by decide, by decide, by decide, by decide, by decide, by decide⟩
  obtain ⟨hminmem, hminle, hminall⟩ := statsLoop_min b ⟨0, 4095, 0, 0⟩
  obtain ⟨hmaxmem, hmaxle, hmaxall⟩ := statsLoop_max b ⟨0, 4095, 0, 0⟩
  have hpos : 0 < b.length := by rw [hlen]; simp [LOG_SIZE]
  obtain ⟨w, hw⟩ := List.exists_mem_of_length_pos hpos
  have hcs : computeStats b = statsLoop b ⟨0, 4095, 0, 0⟩ := rfl
  refine ⟨⟨?_, fun v hv => hcs ▸ hminall v hv⟩,
          ⟨?_, fun v hv => hcs ▸ hmaxall v hv⟩,
          by rw [hcs, statsLoop_over b ⟨0, 4095, 0, 0⟩]; simp,
          computeAvg_exact b hlen hb⟩
  · rw [hcs]
    rcases hminmem with h | h
    · have h' : (statsLoop b ⟨0, 4095, 0, 0⟩).min = 4095 := h
      have hw4095 : w = 4095 := by
        have h1 := hminall w hw
        have h2 := hb w hw
        omega
      rw [h']
      exact hw4095 ▸ hw
    · exact h
  · rw [hcs]
    rcases hmaxmem with h | h
    · have h' : (statsLoop b ⟨0, 4095, 0, 0⟩).max = 0 := h
      have hw0 : w = 0 := by
        have h1 := hmaxall w hw
        have h2 : (statsLoop b ⟨0, 4095, 0, 0⟩).max ≥ 0 := Nat.zero_le _
        omega
      rw [h']
      exact hw0 ▸ hw
    · exact h

/-- Claim C3, witness: the general statement evaluated on the buffer of
49 values 3100 and one value 100. -/
theorem c3_report_statistics_witness :
    ((computeStats (List.replicate 49 3100 ++ [100])).min ∈ List.replicate 49 3100 ++ [100] ∧
      ∀ v ∈ List.replicate 49 3100 ++ [100],
        (computeStats (List.replicate 49 3100 ++ [100])).min ≤ v) ∧
    ((computeStats (List.replicate 49 3100 ++ [100])).max ∈ List.replicate 49 3100 ++ [100] ∧
      ∀ v ∈ List.replicate 49 3100 ++ [100],
        v ≤ (computeStats (List.replicate 49 3100 ++ [100])).max) ∧
    ((computeStats (List.replicate 49 3100 ++ [100])).over =
      (List.replicate 49 3100 ++ [100]).countP fun v => decide (LIGHT_THRESHOLD < v)) ∧
    computeAvg (List.replicate 49 3100 ++ [100]) = (List.replicate 49 3100 ++ [100]).sum / LOG_SIZE :=
  c3_report_statistics.1 (List.replicate 49 3100 ++ [100]) (by decide) (by decide)

/-- Claim C9: over a snapshot of LOG_SIZE samples each at most 4095 the
accumulated uint32 sum equals the exact mathematical sum (it is at most
50 * 4095 = 204750, far below 2^32), and the uint16 average equals the
exact floor average (at most 4095), so no modular wraparound occurs. -/
theorem c9_no_overflow (b : List Nat) (hlen : b.length = LOG_SIZE)
    (hb : ∀ v ∈ b, v ≤ 4095) :
    (computeStats b).sum = b.sum ∧
    b.sum ≤ 204750 ∧
    computeAvg b = b.sum / LOG_SIZE ∧
    computeAvg b ≤ 4095 := by
  have hsum := computeStats_sum_exact b hlen hb
  have hle : b.sum ≤ 204750 := by
    have := sum_le_of_bound b hb
    rw [hlen] at this
    simpa [LOG_SIZE] using this
  have havg := computeAvg_exact b hlen hb
  refine ⟨hsum, hle, havg, ?_⟩
  rw [havg]
  have : b.sum / LOG_SIZE ≤ 204750 / LOG_SIZE := Nat.div_le_div_right hle
  simp only [LOG_SIZE] at this ⊢
  omega

/-- Claim C9, witness: the all-4095 buffer reaches the extreme sum 204750
with exact average 4095. -/
theorem c9_no_overflow_witness :
    (computeStats (List.replicate 50 4095)).sum = (List.replicate 50 4095).sum ∧
    (List.replicate 50 4095).sum ≤ 204750 ∧
    computeAvg (List.replicate 50 4095) = (List.replicate 50 4095).sum / LOG_SIZE ∧
    computeAvg (List.replicate 50 4095) ≤ 4095 :=
  c9_no_overflow (List.replicate 50 4095) (by decide) (by decide)

/-- Claim C5: when the bounded mutex take succeeds, `append` stores the
sample at the current index (all other cells unchanged) and advances the
index modulo LOG_SIZE; on timeout the log array and index are completely
unchanged; in both cases `latest_adc` receives the sample regardless of
the mutex outcome. -/
theorem c5_append_behavior (v : Nat) (s : LogState) (hv : v < UINT16_MOD)
    (hidx : s.log_index < s.adc_log.length) :
    (appendSample true v s).adc_log.getD s.log_index 0 = v ∧
    (appendSample true v s).log_index = (s.log_index + 1) % LOG_SIZE ∧
    (∀ i, i ≠ s.log_index → (appendSample true v s).adc_log.getD i 0 = s.adc_log.getD i 0) ∧
    (appendSample true v s).latest_adc = v ∧
    (appendSample false v s).adc_log = s.adc_log ∧
    (appendSample false v s).log_index = s.log_index ∧
    (appendSample false v s).latest_adc = v := by
  refine ⟨?_, rfl, fun i hi => ?_, rfl, rfl, rfl, rfl⟩
  · show (s.adc_log.set s.log_index (v % UINT16_MOD)).getD s.log_index 0 = v
    rw [getD_set_same s.adc_log s.log_index (v % UINT16_MOD) hidx]
    exact Nat.mod_eq_of_lt hv
  · show (s.adc_log.set s.log_index (v % UINT16_MOD)).getD i 0 = s.adc_log.getD i 0
    exact getD_set_other s.adc_log s.log_index i (v % UINT16_MOD) fun h => hi h.symm

/-- Claim C5, witness: appending 7 to the boot state stores 7 at index 0,
advances the index to 1, leaves other cells at 0, and sets the latest
reading in both mutex outcomes. -/
theorem c5_append_behavior_witness :
    (appendSample true 7 LogState.init).adc_log.getD LogState.init.log_index 0 = 7 ∧
    (appendSample true 7 LogState.init).log_index = (LogState.init.log_index + 1) % LOG_SIZE ∧
    (∀ i, i ≠ LogState.init.log_index →
      (appendSample true 7 LogState.init).adc_log.getD i 0 = LogState.init.adc_log.getD i 0) ∧
    (appendSample true 7 LogState.init).latest_adc = 7 ∧
    (appendSample false 7 LogState.init).adc_log = LogState.init.adc_log ∧
    (appendSample false 7 LogState.init).log_index = LogState.init.log_index ∧
    (appendSample false 7 LogState.init).latest_adc = 7 :=
  c5_append_behavior 7 LogState.init (by decide) (by decide)

/-- Claim C6: the button event is single-slot — signaling an
already-pending event is a no-op, so any positive number of accepted
debounce events delivered before the consumer wakes leaves exactly one
pending event, and the consumer completes exactly one snapshot/report
cycle before blocking again. -/
theorem c6_event_coalescing :
    (∀ p : Bool, giveFromISR (giveFromISR p) = giveFromISR p) ∧
    (∀ (n : Nat) (p : Bool), 1 ≤ n → giveFromISR^[n] p = true) ∧
    (∀ (n : Nat) (p : Bool) (fuel : Nat), 1 ≤ n → 1 ≤ fuel →
      consumerCycles fuel (giveFromISR^[n] p) = 1) := by
  have hiter : ∀ (n : Nat) (p : Bool), 1 ≤ n → giveFromISR^[n] p = true := by
    intro n p hn
    obtain ⟨m, rfl⟩ : ∃ m, n = m + 1 := ⟨n - 1, by omega⟩
    rw [Function.iterate_succ_apply']
    rfl
  have hfalse : ∀ g : Nat, consumerCycles g false = 0 := by
    intro g
    cases g <;> simp [consumerCycles, takeEvent]
  refine ⟨fun p => rfl, hiter, fun n p fuel hn hf => ?_⟩
  obtain ⟨g, rfl⟩ : ∃ g, fuel = g + 1 := ⟨fuel - 1, by omega⟩
  rw [hiter n p hn]
  simp [consumerCycles, takeEvent, hfalse]

/-- Claim C6, witness: two signals before the consumer wakes produce
exactly one consumer cycle in three loop iterations of fuel. -/
theorem c6_event_coalescing_witness :
    consumerCycles 3 (giveFromISR^[2] false) = 1 :=
  c6_event_coalescing.2.2 2 false 3 (by decide) (by decide)

/-- Claim C7: when the bounded 50 ms mutex wait during the snapshot
expires, the snapshot phase still ends with the (uncopied) stack buffer
contents, and the statistics and report for that cycle are still
computed from that buffer — the consumer keeps running. -/
theorem c7_snapshot_timeout_report (handleNonNull : Bool) (stack : List Nat)
    (s : LogState) (p : Bool) :
    (snapshotPhase handleNonNull false stack s p).buffer = stack ∧
    loggerReport (snapshotPhase handleNonNull false stack s p).buffer =
      (computeStats stack, computeAvg stack) :=
  ⟨rfl, rfl⟩

/-- Claim C8: startup (a boot: load-time zeroing of the globals followed
by `app_main`, which writes none of them) yields the same state no matter
what a previous run left behind — index 0, latest reading 0, zeroed log,
zero debounce timestamp, no pending event. -/
theorem c8_startup_idempotent (prev other : Globals) :
    startup prev = ⟨LogState.init, ⟨0⟩, false⟩ ∧
    startup (startup prev) = startup prev ∧
    startup prev = startup other ∧
    (startup prev).log.log_index = 0 ∧
    (startup prev).log.latest_adc = 0 ∧
    (startup prev).log.adc_log = List.replicate LOG_SIZE 0 ∧
    (startup prev).debounce.last_interrupt_time = 0 ∧
    (startup prev).buttonPending = false :=
  ⟨rfl, rfl, rfl, rfl, rfl, rfl, rfl, rfl⟩

/-- Claim C10: in every consumer cycle the suspend and resume calls on
the producer are paired (both happen exactly when the task handle is
non-null), the resume happens whether the mutex wait succeeded or timed
out, and a producer that was running before the snapshot phase is never
left suspended after it. -/
theorem c10_suspend_resume_paired (handleNonNull mutexOk : Bool) (stack : List Nat)
    (s : LogState) (p : Bool) :
    (snapshotPhase handleNonNull mutexOk stack s p).resumeCalled =
      (snapshotPhase handleNonNull mutexOk stack s p).suspendCalled ∧
    (snapshotPhase handleNonNull true stack s p).producerSuspended =
      (snapshotPhase handleNonNull false stack s p).producerSuspended ∧
    (snapshotPhase handleNonNull true stack s p).resumeCalled =
      (snapshotPhase handleNonNull false stack s p).resumeCalled ∧
    (p = false → (snapshotPhase handleNonNull mutexOk stack s p).producerSuspended = false) := by
  refine ⟨rfl, rfl, rfl, fun hp => ?_⟩
  cases handleNonNull <;> simp [snapshotPhase, hp]

/-- Claim C10, witness: with a non-null handle and a timed-out mutex
wait, the producer is not left suspended. -/
theorem c10_suspend_resume_paired_witness :
    (snapshotPhase true false [] LogState.init false).producerSuspended = false :=
  (c10_suspend_resume_paired true false [] LogState.init false).2.2.2 rfl

theorem appendSample_true_length (v : Nat) (s : LogState) :
    (appendSample true v s).adc_log.length = s.adc_log.length := by
  simp [appendSample]

theorem appendSample_true_index (v : Nat) (s : LogState) :
    (appendSample true v s).log_index = (s.log_index + 1) % LOG_SIZE := rfl

theorem appendTrace_wf : ∀ (ops : List (Bool × Nat)) (s : LogState),
    s.log_index < LOG_SIZE → s.adc_log.length = LOG_SIZE →
    (appendTrace ops s).log_index < LOG_SIZE ∧
    (appendTrace ops s).adc_log.length = LOG_SIZE := by
  intro ops
  induction ops with
  | nil => intro s h1 h2; exact ⟨h1, h2⟩
  | cons op ops ih =>
    intro s h1 h2
    have hstep : appendTrace (op :: ops) s = appendTrace ops (appendSample op.1 op.2 s) := rfl
    rw [hstep]
    refine ih (appendSample op.1 op.2 s) ?_ ?_
    · cases hop : op.1 <;> simp only [appendSample, hop, if_true, if_false, LOG_SIZE] at *
      · exact h1
      · omega
    · cases hop : op.1 <;> simp [appendSample, hop, h2]

theorem appendAll_index : ∀ (vs : List Nat) (s : LogState), s.log_index < LOG_SIZE →
    (appendAll vs s).log_index = (s.log_index + vs.length) % LOG_SIZE := by
  intro vs
  induction vs with
  | nil =>
    intro s h
    simp only [appendAll, List.length_nil, Nat.add_zero]
    exact (Nat.mod_eq_of_lt h).symm
  | cons v vs ih =>
    intro s h
    have hstep : appendAll (v :: vs) s = appendAll vs (appendSample true v s) := rfl
    have hidx : (appendSample true v s).log_index = (s.log_index + 1) % LOG_SIZE := rfl
    have hlt : (appendSample true v s).log_index < LOG_SIZE := by
      rw [hidx]; simp only [LOG_SIZE]; omega
    rw [hstep, ih (appendSample true v s) hlt, hidx]
    simp only [List.length_cons, LOG_SIZE]
    omega

theorem appendAll_untouched : ∀ (vs : List Nat) (s : LogState) (i : Nat),
    s.log_index < LOG_SIZE → s.adc_log.length = LOG_SIZE → i < LOG_SIZE →
    (∀ u, u < vs.length → (s.log_index + u) % LOG_SIZE ≠ i) →
    (appendAll vs s).adc_log.getD i 0 = s.adc_log.getD i 0 := by
  intro vs
  induction vs with
  | nil => intro s i _ _ _ _; rfl
  | cons v vs ih =>
    intro s i hidx hlen hi hne
    have hstep : appendAll (v :: vs) s = appendAll vs (appendSample true v s) := rfl
    have h0 : s.log_index ≠ i := by
      have := hne 0 (by simp)
      rwa [Nat.add_zero, Nat.mod_eq_of_lt hidx] at this
    have hlt : (appendSample true v s).log_index < LOG_SIZE := by
      rw [appendSample_true_index]; simp only [LOG_SIZE]; omega
    have hlen' : (appendSample true v s).adc_log.length = LOG_SIZE := by
      rw [appendSample_true_length, hlen]
    have hne' : ∀ u, u < vs.length → ((appendSample true v s).log_index + u) % LOG_SIZE ≠ i := by
      intro u hu
      rw [appendSample_true_index]
      have := hne (u + 1) (by simp only [List.length_cons]; omega)
      simp only [LOG_SIZE] at this ⊢
      omega
    rw [hstep, ih (appendSample true v s) i hlt hlen' hi hne']
    show (s.adc_log.set s.log_index (v % UINT16_MOD)).getD i 0 = s.adc_log.getD i 0
    exact getD_set_other s.adc_log s.log_index i (v % UINT16_MOD) h0

theorem appendAll_slot : ∀ (vs : List Nat) (s : LogState) (t : Nat),
    s.log_index < LOG_SIZE → s.adc_log.length = LOG_SIZE →
    t < vs.length → vs.length ≤ t + LOG_SIZE →
    (appendAll vs s).adc_log.getD ((s.log_index + t) % LOG_SIZE) 0 =
      vs.getD t 0 % UINT16_MOD := by
  intro vs
  induction vs with
  | nil => intro s t _ _ ht _; exact absurd ht (by simp)
  | cons v vs ih =>
    intro s t hidx hlen ht hl
    have hstep : appendAll (v :: vs) s = appendAll vs (appendSample true v s) := rfl
    have hlt : (appendSample true v s).log_index < LOG_SIZE := by
      rw [appendSample_true_index]; simp only [LOG_SIZE]; omega
    have hlen' : (appendSample true v s).adc_log.length = LOG_SIZE := by
      rw [appendSample_true_length, hlen]
    cases t with
    | zero =>
      have hslot : (s.log_index + 0) % LOG_SIZE = s.log_index := by
        rw [Nat.add_zero]; exact Nat.mod_eq_of_lt hidx
      have hvs : vs.length ≤ LOG_SIZE - 1 := by
        simp only [List.length_cons] at hl
        simp only [LOG_SIZE] at *
        omega
      have hne : ∀ u, u < vs.length → ((appendSample true v s).log_index + u) % LOG_SIZE ≠ s.log_index := by
        intro u hu
        rw [appendSample_true_index]
        simp only [LOG_SIZE] at *
        omega
      rw [hstep, hslot,
        appendAll_untouched vs (appendSample true v s) s.log_index hlt hlen' hidx hne]
      show (s.adc_log.set s.log_index (v % UINT16_MOD)).getD s.log_index 0 = _
      rw [getD_set_same s.adc_log s.log_index (v % UINT16_MOD) (by rw [hlen]; exact hidx)]
      rfl
    | succ t' =>
      have ht' : t' < vs.length := by simpa using ht
      have hl' : vs.length ≤ t' + LOG_SIZE := by
        simp only [List.length_cons] at hl
        omega
      have := ih (appendSample true v s) t' hlt hlen' ht' hl'
      rw [appendSample_true_index] at this
      have hmod : ((s.log_index + 1) % LOG_SIZE + t') % LOG_SIZE =
          (s.log_index + (t' + 1)) % LOG_SIZE := by
        simp only [LOG_SIZE]
        omega
      rw [hstep]
      rw [hmod] at this
      rw [this]
      rfl

/-- Claim C4: the log never holds more than LOG_SIZE entries and the
write index stays in [0, LOG_SIZE) under every sequence of appends
(successful or dropped); after k ≥ LOG_SIZE successful appends the
buffer holds exactly the last LOG_SIZE appended values in insertion
order — cell (index + j) mod LOG_SIZE holds the (k - LOG_SIZE + j)-th
appended value; in particular appending 0..59 and snapshotting yields
10..59 in circular order starting at the current index. -/
theorem c4_capacity_wraparound :
    (∀ ops : List (Bool × Nat),
      (appendTrace ops LogState.init).log_index < LOG_SIZE ∧
      (appendTrace ops LogState.init).adc_log.length = LOG_SIZE) ∧
    (∀ vs : List Nat, LOG_SIZE ≤ vs.length → (∀ v ∈ vs, v < UINT16_MOD) →
      ∀ j, j < LOG_SIZE →
        (appendAll vs LogState.init).adc_log.getD
            (((appendAll vs LogState.init).log_index + j) % LOG_SIZE) 0 =
          vs.getD (vs.length - LOG_SIZE + j) 0) ∧
    readOut (appendAll (List.range 60) LogState.init) = List.range' 10 50 := by
  refine ⟨fun ops => appendTrace_wf ops LogState.init (by decide) (by decide),
          fun vs hk hb j hj => ?_, by decide⟩
  have hidx0 : LogState.init.log_index < LOG_SIZE := by decide
  have hlen0 : LogState.init.adc_log.length = LOG_SIZE := by decide
  have hfin := appendAll_index vs LogState.init hidx0
  have ht : vs.length - LOG_SIZE + j < vs.length := by
    simp only [LOG_SIZE] at *
    omega
  have hslot := appendAll_slot vs LogState.init (vs.length - LOG_SIZE + j) hidx0 hlen0 ht
    (by simp only [LOG_SIZE] at *; omega)
  have hmod : ((appendAll vs LogState.init).log_index + j) % LOG_SIZE =
      (LogState.init.log_index + (vs.length - LOG_SIZE + j)) % LOG_SIZE := by
    rw [hfin]
    show ((0 + vs.length) % LOG_SIZE + j) % LOG_SIZE = (0 + (vs.length - LOG_SIZE + j)) % LOG_SIZE
    simp only [LOG_SIZE] at *
    omega
  rw [hmod, hslot]
  have hmem : vs.getD (vs.length - LOG_SIZE + j) 0 ∈ vs := by
    rw [List.getD_eq_getElem vs 0 ht]
    exact List.getElem_mem ht
  exact Nat.mod_eq_of_lt (hb _ hmem)

/-- Claim C4, witness: after appending 0..59 the cell at the write index
holds value 10, the oldest surviving sample. -/
theorem c4_capacity_wraparound_witness :
    (appendAll (List.range 60) LogState.init).adc_log.getD
        (((appendAll (List.range 60) LogState.init).log_index + 0) % LOG_SIZE) 0 =
      (List.range 60).getD ((List.range 60).length - LOG_SIZE + 0) 0 :=
  c4_capacity_wraparound.2.1 (List.range 60) (by decide) (by decide) 0 (by decide)

/-- Invariant of the fine-grained system: every log cell is the zeroed
boot value or (the uint16 image of) a committed sample; committed and
in-flight samples are 12-bit ADC values. -/
def SysInv (s : Sys) : Prop :=
  (∀ x ∈ s.adc_log, x = 0 ∨ x ∈ s.written) ∧
  (∀ v ∈ s.written, v ≤ 4095) ∧
  (∀ v, s.midWrite = some v → v ≤ 4095)

theorem stepSys_inv (s s' : Sys) (st : ProdStep) (hok : stepValOk st = true)
    (hstep : stepSys s st = some s') (hinv : SysInv s) : SysInv s' := by
  obtain ⟨h1, h2, h3⟩ := hinv
  cases st with
  | dropStep v =>
    simp only [stepSys, Option.some.injEq] at hstep
    subst hstep
    exact ⟨h1, h2, h3⟩
  | acquireStep v =>
    simp only [stepSys] at hstep
    split at hstep
    · exact absurd hstep (by simp)
    · simp only [Option.some.injEq] at hstep
      subst hstep
      simp only [stepValOk, decide_eq_true_eq] at hok
      refine ⟨h1, h2, fun w hw => ?_⟩
      simp only [Option.some.injEq] at hw
      omega
  | commitStep =>
    simp only [stepSys] at hstep
    cases hmw : s.midWrite with
    | none => rw [hmw] at hstep; exact absurd hstep (by simp)
    | some v =>
      rw [hmw] at hstep
      simp only [Option.some.injEq] at hstep
      subst hstep
      have hv : v ≤ 4095 := h3 v hmw
      refine ⟨fun x hx => ?_, fun w hw => ?_, fun w hw => by simp at hw⟩
      · rcases List.mem_or_eq_of_mem_set hx with hold | hnew
        · rcases h1 x hold with h | h
          · exact Or.inl h
          · exact Or.inr (List.mem_append_left _ h)
        · right
          rw [hnew, Nat.mod_eq_of_lt (by simp only [UINT16_MOD]; omega)]
          exact List.mem_append_right _ (by simp)
      · rcases List.mem_append.mp hw with h | h
        · exact h2 w h
        · simp only [List.mem_singleton] at h
          omega

theorem runSys_inv : ∀ (steps : List ProdStep) (s s' : Sys),
    (∀ st ∈ steps, stepValOk st = true) → runSys steps s = some s' →
    SysInv s → SysInv s' := by
  intro steps
  induction steps with
  | nil =>
    intro s s' _ hrun hinv
    simp only [runSys, Option.some.injEq] at hrun
    subst hrun
    exact hinv
  | cons st steps ih =>
    intro s s' hok hrun hinv
    simp only [runSys] at hrun
    cases hstep : stepSys s st with
    | none => rw [hstep] at hrun; exact absurd hrun (by simp)
    | some s2 =>
      rw [hstep] at hrun
      exact ih s2 s' (fun t ht => hok t (List.mem_cons_of_mem _ ht)) hrun
        (stepSys_inv s s2 st (hok st (by simp)) hstep hinv)

theorem sysInit_inv : SysInv Sys.init := by
  refine ⟨fun x hx => Or.inl ?_, by simp [Sys.init], by simp [Sys.init]⟩
  exact List.eq_of_mem_replicate hx

/-- Claim C1, counterexample: a snapshot is not always a consistent copy.
If the event fires while the producer sits inside its critical section
(it has taken `xLogMutex` with sample 5 but not yet stored it), the
consumer suspends it right there, the 50 ms mutex wait must time out,
and the report is computed from the consumer's never-written stack
buffer: the snapshot can contain 7, which is neither the boot value 0,
nor the latest sample, nor any value ever appended to the log. -/
theorem c1_counterexample_snapshot_timeout :
    runSys [ProdStep.acquireStep 5] Sys.init =
      some ⟨List.replicate 50 0, 0, 5, true, some 5, []⟩ ∧
    ¬ (∀ x ∈ snapshotOf (7 :: List.replicate 49 0)
          ⟨List.replicate 50 0, 0, 5, true, some 5, []⟩,
        x = 0 ∨ x = (⟨List.replicate 50 0, 0, 5, true, some 5, []⟩ : Sys).latest_adc ∨
          ∃ v ∈ (⟨List.replicate 50 0, 0, 5, true, some 5, []⟩ : Sys).written,
            x = v % UINT16_MOD) := by
  constructor
  · decide
  · decide

/-- Claim C1, amended: every snapshot whose bounded mutex wait succeeds
(the suspended producer is not holding the mutex, so the copy is taken)
is a consistent copy of the log at one instant: it equals the log cell
for cell, and every value in it is the boot value 0 or a value that was
actually appended. When the producer is suspended while holding the
mutex the wait times out and the returned buffer is the consumer's
uninitialized stack array instead. -/
theorem c1_amended_snapshot_consistency (steps : List ProdStep) (s : Sys)
    (garbage : List Nat)
    (hok : ∀ st ∈ steps, stepValOk st = true)
    (hrun : runSys steps Sys.init = some s)
    (hfree : s.mutexHeld = false) :
    snapshotOf garbage s = s.adc_log ∧
    ∀ x ∈ snapshotOf garbage s, x = 0 ∨ x ∈ s.written := by
  have hinv := runSys_inv steps Sys.init s hok hrun sysInit_inv
  have hbuf : snapshotOf garbage s = s.adc_log := by
    simp [snapshotOf, hfree]
  exact ⟨hbuf, by rw [hbuf]; exact hinv.1⟩

/-- Claim C1, witness: after the producer appends sample 5 and leaves its
critical section, a snapshot copies the log exactly and every value in it
is 0 or the appended 5. -/
theorem c1_amended_snapshot_consistency_witness :
    snapshotOf [] ⟨(List.replicate 50 0).set 0 5, 1, 5, false, none, [5]⟩ =
      (⟨(List.replicate 50 0).set 0 5, 1, 5, false, none, [5]⟩ : Sys).adc_log ∧
    ∀ x ∈ snapshotOf [] ⟨(List.replicate 50 0).set 0 5, 1, 5, false, none, [5]⟩,
      x = 0 ∨ x ∈ (⟨(List.replicate 50 0).set 0 5, 1, 5, false, none, [5]⟩ : Sys).written :=
  c1_amended_snapshot_consistency [ProdStep.acquireStep 5, ProdStep.commitStep]
    ⟨(List.replicate 50 0).set 0 5, 1, 5, false, none, [5]⟩ []
    (by decide) (by decide) rfl
